import Mathlib

/-!
Verification of `nsls2/core.py` (scikit-beam core data-reduction utilities).

The Python functions are shallowly embedded over exact rationals (`ℚ` in place
of IEEE floats) and Lean lists (in place of numpy arrays).  Fallible calls
return `Except PyError`; each raised Python exception is modelled by an
explicit `PyError` value.  Definitions come first, followed by all lemmas
and theorems.
-/

/-! ## Definitions: the embedded program and the claim-side notions -/

/-- The Python exceptions raised by the embedded code. -/
inductive PyError where
  | valueError (msg : String)
  | typeError
  | indexError
  | zeroDivisionError
deriving DecidableEq, Repr

instance {ε α : Type _} [DecidableEq ε] [DecidableEq α] : DecidableEq (Except ε α) :=
  fun x y =>
  match x, y with
  | .ok a, .ok b =>
    if h : a = b then isTrue (h ▸ rfl) else isFalse (fun hh => h (by cases hh; rfl))
  | .error a, .error b =>
    if h : a = b then isTrue (h ▸ rfl) else isFalse (fun hh => h (by cases hh; rfl))
  | .ok _, .error _ => isFalse (fun hh => by cases hh)
  | .error _, .ok _ => isFalse (fun hh => by cases hh)

/-- `np.linspace(start, stop, num, endpoint=True)` over exact rationals.
For `num ≥ 2` the points are `start + i * (stop - start) / (num - 1)`;
`num = 1` gives `[start]`, `num = 0` gives `[]` (in exact arithmetic the
final point equals `stop`, as numpy guarantees for `endpoint=True`). -/
def linspaceQ (start stop : ℚ) (num : ℕ) : List ℚ :=
  if num ≤ 1 then List.replicate num start
  else (List.range num).map
    (fun i : ℕ => start + (i : ℚ) * ((stop - start) / ((num : ℚ) - 1)))

/-- The `num_valid_args` count at the top of `bin_edges` (core.py:532). -/
def num_valid_args (range_min range_max : Option ℚ) (nbins : Option ℤ)
    (step : Option ℚ) : ℕ :=
  (if range_min.isSome then 1 else 0) + (if range_max.isSome then 1 else 0) +
    (if step.isSome then 1 else 0) + (if nbins.isSome then 1 else 0)

/-- The `range_max <= range_min` guard of `bin_edges` (core.py:538). -/
def bad_range (range_min range_max : Option ℚ) : Bool :=
  match range_min, range_max with
  | some mn, some mx => mx ≤ mn
  | _, _ => false

/-- The `nbins <= 0` guard of `bin_edges` (core.py:542). -/
def bad_nbins (nbins : Option ℤ) : Bool :=
  match nbins with
  | some n => n ≤ 0
  | none => false

/-- The tail of the (range_min, range_max, step) branch of `bin_edges`:
the `ret[-1]` access (raising `IndexError` on an empty array) and the
final truncation check (core.py:556-569). -/
def ret_last_check (range_max : ℚ) (ret : List ℚ) : Except PyError (List ℚ) :=
  match ret.getLast? with
  | none => .error .indexError -- ret[-1] on an empty array
  | some lastv =>
    -- if the last value is greater than the max (should never happen)
    if lastv > range_max then .ok ret.dropLast
    else .ok ret

/-- `bin_edges` (core.py:479-577).  Branches follow the source exactly:
argument-count check, range check, nbins check, then the four
three-argument cases.  In the `(range_min, range_max, step)` case the
Python float floor-division `//` becomes `⌊·⌋` (raising
`ZeroDivisionError` for `step = 0`, as Python float `//` does), and the
`ret[-1]` access raises `IndexError` when `nbins + 1 ≤ 0` leaves the
array empty.  The truncation log message (core.py:560-568) is a
diagnostic only and has no effect on the result. -/
def bin_edges (range_min range_max : Option ℚ) (nbins : Option ℤ)
    (step : Option ℚ) : Except PyError (List ℚ) :=
  if num_valid_args range_min range_max nbins step ≠ 3 then
    .error (.valueError "Exactly three of the arguments must be non-None")
  else if bad_range range_min range_max then
    .error (.valueError "The minimum must be less than the maximum")
  else if bad_nbins nbins then
    .error (.valueError "The number of bins must be positive")
  else
    match step with
    | none =>
      -- the easy case: np.linspace(range_min, range_max, nbins + 1)
      match range_min, range_max, nbins with
      | some mn, some mx, some n => .ok (linspaceQ mn mx (n.toNat + 1))
      | _, _, _ => .error .typeError -- unreachable: the 3-of-4 check passed
    | some st =>
      match nbins with
      | none =>
        -- the user gave us min, max, and step
        match range_min, range_max with
        | some mn, some mx =>
          if st > mx - mn then
            .error (.valueError
              "The step can not be greater than the difference between min and max")
          else if st = 0 then .error .zeroDivisionError
          else
            let nb : ℤ := ⌊(mx - mn) / st⌋
            ret_last_check mx
              ((List.range (nb + 1).toNat).map (fun i : ℕ => mn + (i : ℚ) * st))
        | _, _ => .error .typeError -- unreachable
      | some n =>
        match range_max with
        | none =>
          -- we got range_min, nbins, step
          match range_min with
          | some mn =>
            .ok ((List.range (n.toNat + 1)).map (fun i : ℕ => mn + (i : ℚ) * st))
          | none => .error .typeError -- unreachable
        | some mx =>
          match range_min with
          | none =>
            -- we got range_max, nbins, step: range_max - np.arange(nbins+1)[::-1] * step
            .ok ((List.range (n.toNat + 1)).map
              (fun i : ℕ => mx - ((n : ℚ) - (i : ℚ)) * st))
          | some _ => .error .typeError -- unreachable: all four args given

/-- An image, modelled as its flattened pixel values. -/
abbrev Img : Type := List ℚ

/-- Elementwise numpy subtraction `img - ref` of two same-shape images. -/
def imgSub (a b : Img) : Img := List.zipWith (fun x y => x - y) a b

/-- The loop of `img_subtraction_pre` (core.py:339-347): walk
`zip(img_arr[1:], is_reference[1:])` keeping the most recent reference
image, and emit `img - ref_imge` for each measured image. -/
def subLoop (ref : Img) : List (Img × Bool) → List Img
  | [] => []
  | (img, r) :: rest =>
    if r then subLoop img rest
    else imgSub img ref :: subLoop ref rest

/-- `img_subtraction_pre(img_arr, is_reference)` (core.py:293-350).
`is_reference[0]` on an empty flag array and `img_arr[0]` on an empty
image array raise `IndexError`; a `False` first flag raises `ValueError`;
`np.zeros` with a negative first dimension raises `ValueError`; writing
past the end of the preallocated `corrected_image` raises `IndexError`.
Unfilled preallocated rows (possible only when the two inputs have
different lengths) remain zero images. -/
def img_subtraction_pre (img_arr : List Img) (is_reference : List Bool) :
    Except PyError (List Img) :=
  match is_reference with
  | [] => .error .indexError
  | r0 :: rtail =>
    if !r0 then .error (.valueError "The first image is not a reference image")
    else
      match img_arr with
      | [] => .error .indexError
      | img0 :: itail =>
        let ref_count := (r0 :: rtail).countP (fun b => b)
        if ((img0 :: itail).length : ℤ) - (ref_count : ℤ) < 0 then
          .error (.valueError "negative dimensions are not allowed")
        else
          let out_len := (img0 :: itail).length - ref_count
          let filled := subLoop img0 (itail.zip rtail)
          if out_len < filled.length then .error .indexError
          else .ok (filled ++
            List.replicate (out_len - filled.length)
              ((List.replicate img0.length (0 : ℚ)) : Img))

/-- The claim's description of the algorithm: each non-reference image has
the nearest preceding reference image subtracted from it, in input order;
reference frames produce no output. -/
def subtractNearestRef : Option Img → List Img → List Bool → List Img
  | _, img :: it, true :: ft => subtractNearestRef (some img) it ft
  | some ref, img :: it, false :: ft =>
    imgSub img ref :: subtractNearestRef (some ref) it ft
  | none, _ :: it, false :: ft => subtractNearestRef none it ft
  | _, _, _ => []

/-- `detector2D_to_1D(img, detector_center)` (core.py:353-386).
`np.meshgrid(a, b)` with default ('xy') indexing, where
`a = arange(rows) - center[0]` and `b = arange(cols) - center[1]`,
produces arrays of shape `(cols, rows)` with `X[j, i] = a[i]` and
`Y[j, i] = b[j]`; `X.ravel()` therefore repeats `a` once per column of
the image, `Y.ravel()` repeats each entry of `b` `rows` times, and
`img.ravel()` flattens the image row-major. -/
def detector2D_to_1D (img : List (List ℚ)) (detector_center : ℚ × ℚ) :
    List ℚ × List ℚ × List ℚ :=
  let rows := img.length
  let cols := (img.headD []).length
  let a := (List.range rows).map (fun i : ℕ => (i : ℚ) - detector_center.1)
  let b := (List.range cols).map (fun j : ℕ => (j : ℚ) - detector_center.2)
  ((List.replicate cols a).flatten,
   (b.map (fun y => List.replicate rows y)).flatten,
   img.flatten)

/-- Python values that can be stored through `MD_dict.__setitem__`:
strings, numbers, `None`, tuples/lists (both index the same way), and
`md_value` namedtuples. -/
inductive PyVal where
  | pnone
  | pstr (s : String)
  | pint (n : ℤ)
  | ptuple (elems : List PyVal)
  | pmd (value units : PyVal)

/-- The `md_value` namedtuple (core.py:52): a `(value, units)` pair. -/
structure md_value where
  value : PyVal
  units : PyVal

/-- Python `val[1]`: `TypeError` for non-subscriptable values,
`IndexError` for too-short sequences.  A string yields its second
character as a one-character string; an `md_value` yields its units. -/
def pyGetItem1 : PyVal → Except PyError PyVal
  | .ptuple es =>
    match es[1]? with
    | some v => .ok v
    | none => .error .indexError
  | .pstr s =>
    match s.toList[1]? with
    | some c => .ok (.pstr (String.mk [c]))
    | none => .error .indexError
  | .pmd _ u => .ok u
  | _ => .error .typeError

/-- Python `md_value(*val)`: unpacking `val` into the two-field namedtuple
constructor succeeds only for a 2-element iterable and otherwise raises
`TypeError` (wrong arity or non-iterable argument). -/
def pyUnpack2 : PyVal → Except PyError (PyVal × PyVal)
  | .ptuple [a, b] => .ok (a, b)
  | .ptuple _ => .error .typeError
  | .pstr s =>
    match s.toList with
    | [c1, c2] => .ok (.pstr (String.mk [c1]), .pstr (String.mk [c2]))
    | _ => .error .typeError
  | .pmd v u => .ok (v, u)
  | _ => .error .typeError

/-- `isinstance(val[1], string_types) or val[1] is None` (core.py:189). -/
def isStrOrNone : PyVal → Bool
  | .pstr _ => true
  | .pnone => true
  | _ => false

/-- The value-coercion logic of `MD_dict.__setitem__` (core.py:177-198),
which decides what `md_value` is stored at the addressed leaf: an
`md_value` is stored as passed; a bare string gets units `"text"`; then
the code tries `val[1]` — if it is a string or `None` it attempts
`md_value(*val)`, otherwise (or on `TypeError` from either operation) it
stores `md_value(val, None)`.  Only `TypeError` is caught by the
`except` clause (core.py:197); any other exception propagates. -/
def MD_dict_setitem_coerce (val : PyVal) : Except PyError md_value :=
  match val with
  | .pmd v u => .ok ⟨v, u⟩
  | .pstr s => .ok ⟨.pstr s, .pstr "text"⟩
  | v =>
    match pyGetItem1 v with
    | .error .typeError => .ok ⟨v, .pnone⟩
    | .error e => .error e
    | .ok v1 =>
      if isStrOrNone v1 then
        match pyUnpack2 v with
        | .ok (a, b) => .ok ⟨a, b⟩
        | .error .typeError => .ok ⟨v, .pnone⟩
        | .error e => .error e
      else .ok ⟨v, .pnone⟩

/-- C7 (amended): the stored value follows the coercion rule by cases on
the input — an `md_value` is stored unchanged; a bare string gets units
`"text"`; an indexable value with fewer than two elements raises
`IndexError` (uncaught); a 2-element tuple whose second element is a
string or `None` is stored as the pair `(value, units)`; every other
value (longer tuples, 2-element tuples with a non-string second element,
and non-indexable values, which raise `TypeError` internally) is stored
whole with `units=None`. -/
def setitem_coerce_claim : PyVal → Except PyError md_value
  | .pmd v u => .ok ⟨v, u⟩
  | .pstr s => .ok ⟨.pstr s, .pstr "text"⟩
  | .ptuple [] => .error .indexError
  | .ptuple [_] => .error .indexError
  | .ptuple [a, b] =>
    if isStrOrNone b then .ok ⟨a, b⟩ else .ok ⟨.ptuple [a, b], .pnone⟩
  | .ptuple es => .ok ⟨.ptuple es, .pnone⟩
  | v => .ok ⟨v, .pnone⟩

/-- `_defaults["bins"] = 100` (core.py:55-57). -/
def defaults_bins : ℕ := 100

/-- Total weight of the samples in `xy = zip x y` whose position satisfies
`pred`.  `np.histogram` with an explicit edge array computes each bin as a
difference of such prefix totals: it sorts the samples by position,
prefix-sums the weights, and reads the running total at
`searchsorted(sorted_x, edge, side='left')` (number of positions `< edge`;
`side='right'` — number `≤ edge` — for the final edge). -/
def wsum (xy : List (ℚ × ℚ)) (pred : ℚ → Bool) : ℚ :=
  ((xy.filter (fun p => pred p.1)).map Prod.snd).sum

/-- Number of positions in `x` satisfying `pred` (the unweighted
`np.histogram` prefix count). -/
def pcount (x : List ℚ) (pred : ℚ → Bool) : ℕ :=
  x.countP pred

/-- The per-bin weighted totals of `np.histogram(a=x, bins, weights=y)`:
bin `i` is the difference of the weighted prefix totals at its two edges,
with the final bin right-closed. -/
def hist_val (xy : List (ℚ × ℚ)) (bins : List ℚ) (n : ℕ) : List ℚ :=
  (List.range n).map (fun i =>
    (if i = n - 1 then wsum xy (fun v => v ≤ bins.getD (i + 1) 0)
     else wsum xy (fun v => v < bins.getD (i + 1) 0)) -
      wsum xy (fun v => v < bins.getD i 0))

/-- The per-bin counts of `np.histogram(a=x, bins)`. -/
def hist_count (x : List ℚ) (bins : List ℚ) (n : ℕ) : List ℕ :=
  (List.range n).map (fun i =>
    (if i = n - 1 then pcount x (fun v => v ≤ bins.getD (i + 1) 0)
     else pcount x (fun v => v < bins.getD (i + 1) 0)) -
      pcount x (fun v => v < bins.getD i 0))

/-- `bin_1D(x, y, nx, min_x, max_x)` (core.py:389-432).  Defaults:
`min_x = np.min(x)` and `max_x = np.max(x)` (raising `ValueError` on an
empty array), `nx = _defaults["bins"]`.  The edges come from
`np.linspace(min_x, max_x, nx + 1, endpoint=True)`; `np.histogram` raises
`ValueError` when `weights` has a different shape from `a` or when the
edge array decreases, and otherwise fills the bins by prefix totals
(`hist_val`, `hist_count`). -/
def bin_1D (x y : List ℚ) (nx : Option ℕ) (min_x max_x : Option ℚ) :
    Except PyError (List ℚ × List ℚ × List ℕ) :=
  match (match min_x with | some m => some m | none => x.min?),
        (match max_x with | some m => some m | none => x.max?) with
  | some mn, some mx =>
    let n := nx.getD defaults_bins
    if x.length ≠ y.length then
      .error (.valueError "weights should have the same shape as a")
    else if mx < mn then
      .error (.valueError "bins must increase monotonically")
    else
      let bins := linspaceQ mn mx (n + 1)
      .ok (bins, hist_val (x.zip y) bins n, hist_count x bins n)
  | _, _ =>
    .error (.valueError "zero-size array to reduction operation")

/-- The claim side of C8: position `v` falls in bin `i` of the `nx` bins
linearly spaced between `min_x` and `max_x` — half-open `[edge_i, edge_{i+1})`
except that the final bin is right-closed up to `max_x`. -/
def fallsInBin (mn mx : ℚ) (n i : ℕ) (v : ℚ) : Bool :=
  if i = n - 1 then
    decide (mn + (i : ℚ) * ((mx - mn) / n) ≤ v) && decide (v ≤ mx)
  else
    decide (mn + (i : ℚ) * ((mx - mn) / n) ≤ v) &&
      decide (v < mn + ((i + 1 : ℕ) : ℚ) * ((mx - mn) / n))

/-! ## Lemmas and theorems -/

lemma ret_last_check_of_getLast? (range_max v : ℚ) (ret : List ℚ)
    (h : ret.getLast? = some v) :
    ret_last_check range_max ret =
      if range_max < v then .ok ret.dropLast else .ok ret := by
  unfold ret_last_check
  rw [h]

example : bin_edges (some 0) (some 10) (some 5) none = .ok [0, 2, 4, 6, 8, 10] := by
  norm_num [bin_edges, num_valid_args, bad_range, bad_nbins, linspaceQ, List.range_succ,
    show ((5 : ℤ)).toNat = 5 by decide]

example : bin_edges (some 0) (some 10) none (some 3) = .ok [0, 3, 6, 9] := by
  norm_num [bin_edges, num_valid_args, bad_range, bad_nbins, ret_last_check,
    List.range_succ,
    show ((10 : ℚ) - 0) / 3 = 10 / 3 by norm_num,
    show (⌊(10 : ℚ) / 3⌋ : ℤ) = 3 by norm_num [Int.floor_eq_iff],
    show ((4 : ℤ)).toNat = 4 by decide]

example : bin_edges (some 0) none (some 1) (some (-1)) = .ok [0, -1] := by
  norm_num [bin_edges, num_valid_args, bad_range, bad_nbins, List.range_succ,
    show ((1 : ℤ)).toNat = 1 by decide]

example : bin_edges (some 0) (some 10) none (some 20) =
    .error (.valueError
      "The step can not be greater than the difference between min and max") := by
  norm_num [bin_edges, num_valid_args, bad_range, bad_nbins]

example : bin_edges (some 0) (some 10) none (some (-1)) = .error .indexError := by
  norm_num [bin_edges, num_valid_args, bad_range, bad_nbins, ret_last_check,
    show ((10 : ℚ) - 0) / (-1) = -10 by norm_num,
    show (⌊(-10 : ℚ)⌋ : ℤ) = -10 by norm_num,
    show ((-9 : ℤ)).toNat = 0 by decide]

example : bin_edges none (some 10) (some 2) (some 3) = .ok [4, 7, 10] := by
  norm_num [bin_edges, num_valid_args, bad_range, bad_nbins, List.range_succ,
    show ((2 : ℤ)).toNat = 2 by decide]

lemma rangeMap_length {α : Type _} (f : ℕ → α) (m : ℕ) :
    ((List.range m).map f).length = m := by
  simp

lemma rangeMap_getElem? {α : Type _} (f : ℕ → α) {m i : ℕ} (h : i < m) :
    ((List.range m).map f)[i]? = some (f i) := by
  rw [List.getElem?_map, List.getElem?_range h]; rfl

lemma rangeMap_getLast? {α : Type _} (f : ℕ → α) {m : ℕ} (h : m ≠ 0) :
    ((List.range m).map f).getLast? = some (f (m - 1)) := by
  rw [List.getLast?_eq_getElem?, rangeMap_length]
  exact rangeMap_getElem? f (by omega)

lemma rangeMap_head? {α : Type _} (f : ℕ → α) {m : ℕ} (h : m ≠ 0) :
    ((List.range m).map f).head? = some (f 0) := by
  have h0 : ((List.range m).map f).head? = ((List.range m).map f)[0]? := by
    cases hm : (List.range m).map f <;> simp
  rw [h0, rangeMap_getElem? f (by omega)]

lemma linspaceQ_eq_rangeMap (a b : ℚ) {num : ℕ} (h : 2 ≤ num) :
    linspaceQ a b num =
      (List.range num).map (fun i : ℕ => a + (i : ℚ) * ((b - a) / ((num : ℚ) - 1))) := by
  unfold linspaceQ
  rw [if_neg (by omega)]

lemma linspaceQ_length (a b : ℚ) (num : ℕ) : (linspaceQ a b num).length = num := by
  unfold linspaceQ
  split <;> simp

lemma rangeMap_getD {α : Type _} (f : ℕ → α) (d : α) {m i : ℕ} (h : i < m) :
    ((List.range m).map f).getD i d = f i := by
  rw [List.getD_eq_getElem?_getD, rangeMap_getElem? f h]
  rfl

/-- In the (range_min, range_max, step) case with `0 < step ≤ range_max - range_min`
the derived bin count `⌊(range_max - range_min)/step⌋` is at least 1. -/
lemma mms_floor_pos (mn mx st : ℚ) (h2 : 0 < st) (h3 : st ≤ mx - mn) :
    1 ≤ ⌊(mx - mn) / st⌋ := by
  rw [Int.le_floor]
  rw [show (((1 : ℤ) : ℚ)) = 1 by norm_num]
  rw [le_div_iff₀ h2]
  linarith

/-- In exact arithmetic the last generated edge `range_min + nbins·step`
never exceeds `range_max`, so `ret_last_check` returns the full array. -/
lemma mms_ret_eval (mn mx st : ℚ) (h2 : 0 < st) (h3 : st ≤ mx - mn) :
    ret_last_check mx ((List.range ((⌊(mx - mn) / st⌋ + 1).toNat)).map
      (fun i : ℕ => mn + (i : ℚ) * st)) =
    .ok ((List.range ((⌊(mx - mn) / st⌋ + 1).toNat)).map
      (fun i : ℕ => mn + (i : ℚ) * st)) := by
  have hst : st ≠ 0 := h2.ne'
  have hnb1 : 1 ≤ ⌊(mx - mn) / st⌋ := mms_floor_pos mn mx st h2 h3
  have hm : (⌊(mx - mn) / st⌋ + 1).toNat = ⌊(mx - mn) / st⌋.toNat + 1 := by omega
  have hcastnb : ((⌊(mx - mn) / st⌋.toNat : ℚ)) = ((⌊(mx - mn) / st⌋ : ℤ) : ℚ) := by
    exact_mod_cast congrArg (fun z : ℤ => (z : ℚ))
      (Int.toNat_of_nonneg (by omega : (0 : ℤ) ≤ ⌊(mx - mn) / st⌋))
  have hlast_le : mn + ((⌊(mx - mn) / st⌋ : ℤ) : ℚ) * st ≤ mx := by
    have hf : ((⌊(mx - mn) / st⌋ : ℤ) : ℚ) ≤ (mx - mn) / st := Int.floor_le _
    have : ((⌊(mx - mn) / st⌋ : ℤ) : ℚ) * st ≤ ((mx - mn) / st) * st :=
      mul_le_mul_of_nonneg_right hf h2.le
    rw [div_mul_cancel₀ _ hst] at this
    linarith
  have hv : ((((⌊(mx - mn) / st⌋ + 1).toNat - 1 : ℕ)) : ℚ) =
      ((⌊(mx - mn) / st⌋ : ℤ) : ℚ) := by
    rw [hm, Nat.add_sub_cancel, hcastnb]
  rw [ret_last_check_of_getLast? mx _ _ (rangeMap_getLast? _ (by omega))]
  rw [hv]
  rw [if_neg (not_lt.mpr hlast_le)]

/-- C1: for `range_min < range_max`, `nbins > 0` and `step` omitted,
`bin_edges` returns `nbins + 1` linearly spaced edges whose first element
is `range_min` and whose last element is `range_max`; in particular
`bin_edges(0, 10, nbins=5)` returns `[0, 2, 4, 6, 8, 10]`. -/
theorem bin_edges_linspace_case (mn mx : ℚ) (n : ℤ) (h1 : mn < mx) (h2 : 0 < n) :
    (∃ edges, bin_edges (some mn) (some mx) (some n) none = .ok edges ∧
      edges.length = n.toNat + 1 ∧
      edges.head? = some mn ∧
      edges.getLast? = some mx ∧
      (∀ i < edges.length, edges[i]? = some (mn + i * ((mx - mn) / n)))) ∧
    bin_edges (some 0) (some 10) (some 5) none = .ok [0, 2, 4, 6, 8, 10] := by
  constructor
  · have hnum : 2 ≤ n.toNat + 1 := by omega
    have hcast : ((n.toNat + 1 : ℕ) : ℚ) - 1 = (n : ℚ) := by
      have : ((n.toNat : ℤ) : ℚ) = (n : ℚ) := by
        rw [Int.toNat_of_nonneg h2.le]
      push_cast
      push_cast at this
      linarith
    refine ⟨linspaceQ mn mx (n.toNat + 1), ?_, ?_, ?_, ?_, ?_⟩
    · simp [bin_edges, num_valid_args, bad_range, bad_nbins, h1.not_le, h2.not_le]
    · exact linspaceQ_length mn mx (n.toNat + 1)
    · rw [linspaceQ_eq_rangeMap mn mx hnum, rangeMap_head? _ (by omega)]
      norm_num
    · rw [linspaceQ_eq_rangeMap mn mx hnum, rangeMap_getLast? _ (by omega)]
      have hn0 : (n : ℚ) ≠ 0 := by
        exact_mod_cast h2.ne'
      rw [hcast]
      congr 1
      have : ((n.toNat : ℚ)) = (n : ℚ) := by
        exact_mod_cast congrArg (fun z : ℤ => (z : ℚ)) (Int.toNat_of_nonneg h2.le)
      simp only [Nat.add_sub_cancel]
      rw [this]
      field_simp
    · intro i hi
      rw [linspaceQ_length] at hi
      rw [linspaceQ_eq_rangeMap mn mx hnum, rangeMap_getElem? _ hi, hcast]
  · norm_num [bin_edges, num_valid_args, bad_range, bad_nbins, linspaceQ, List.range_succ,
      show ((5 : ℤ)).toNat = 5 by decide]

/-- Witness for C1 at `(range_min, range_max, nbins) = (0, 10, 5)`. -/
theorem bin_edges_linspace_case_witness :
    (0 : ℚ) < 10 ∧ (0 : ℤ) < 5 ∧
    bin_edges (some 0) (some 10) (some 5) none = .ok [0, 2, 4, 6, 8, 10] :=
  ⟨by norm_num, by norm_num,
    (bin_edges_linspace_case 0 10 5 (by norm_num) (by norm_num)).2⟩

/-- C3: whenever the number of non-`None` arguments among
`{range_min, range_max, nbins, step}` differs from 3, `bin_edges` fails with
`ValueError` and returns no edges. -/
theorem bin_edges_wrong_arg_count (range_min range_max : Option ℚ) (nbins : Option ℤ)
    (step : Option ℚ) (h : num_valid_args range_min range_max nbins step ≠ 3) :
    bin_edges range_min range_max nbins step =
      .error (.valueError "Exactly three of the arguments must be non-None") := by
  simp [bin_edges, h]

/-- Witness for C3 with zero non-`None` arguments. -/
theorem bin_edges_wrong_arg_count_witness :
    num_valid_args none none none none ≠ 3 ∧
    bin_edges none none none none =
      .error (.valueError "Exactly three of the arguments must be non-None") :=
  ⟨by decide, bin_edges_wrong_arg_count none none none none (by decide)⟩

/-- C9: with `nbins` omitted and `step > range_max - range_min`, `bin_edges`
fails with `ValueError` instead of returning a single truncated bin. -/
theorem bin_edges_step_exceeds_range (mn mx st : ℚ) (h : mx - mn < st) :
    ∃ msg, bin_edges (some mn) (some mx) none (some st) =
      .error (.valueError msg) := by
  by_cases hr : mx ≤ mn
  · exact ⟨"The minimum must be less than the maximum",
      by simp [bin_edges, num_valid_args, bad_range, bad_nbins, hr]⟩
  · refine ⟨"The step can not be greater than the difference between min and max", ?_⟩
    simp only [bin_edges, num_valid_args, bad_range, bad_nbins]
    norm_num [hr, h]

/-- Witness for C9 at `(range_min, range_max, step) = (0, 10, 20)`. -/
theorem bin_edges_step_exceeds_range_witness :
    (10 : ℚ) - 0 < 20 ∧
    ∃ msg, bin_edges (some 0) (some 10) none (some 20) =
      .error (.valueError msg) :=
  ⟨by norm_num, bin_edges_step_exceeds_range 0 10 20 (by norm_num)⟩

/-- C2 counterexample: with `nbins` omitted the call does NOT always return
truncated edges — `step > range_max - range_min` raises `ValueError`
(core.py:552-554) and a negative step leaves `ret` empty so `ret[-1]`
raises `IndexError`, so the claim's unconditional reading is false. -/
theorem bin_edges_min_max_step_counterexample :
    bin_edges (some 0) (some 10) none (some 20) =
      .error (.valueError
        "The step can not be greater than the difference between min and max") ∧
    bin_edges (some 0) (some 10) none (some (-1)) = .error .indexError := by
  constructor
  · norm_num [bin_edges, num_valid_args, bad_range, bad_nbins]
  · norm_num [bin_edges, num_valid_args, bad_range, bad_nbins, ret_last_check,
      show ((10 : ℚ) - 0) / (-1) = -10 by norm_num,
      show (⌊(-10 : ℚ)⌋ : ℤ) = -10 by norm_num,
      show ((-9 : ℤ)).toNat = 0 by decide]

/-- C2 (amended): with `nbins` omitted, `range_min < range_max` and
`0 < step ≤ range_max - range_min`, `bin_edges` succeeds with
`nbins = ⌊(range_max - range_min)/step⌋` and `edges[i] = range_min + i·step`
for `i ∈ [0, nbins]`; the gap left when `step` does not divide the range
exactly is not an error. -/
theorem bin_edges_min_max_step (mn mx st : ℚ) (h1 : mn < mx) (h2 : 0 < st)
    (h3 : st ≤ mx - mn) :
    ∃ edges, bin_edges (some mn) (some mx) none (some st) = .ok edges ∧
      edges.length = (⌊(mx - mn) / st⌋).toNat + 1 ∧
      ∀ i < edges.length, edges[i]? = some (mn + (i : ℚ) * st) := by
  have hst : st ≠ 0 := h2.ne'
  have hnb1 : 1 ≤ ⌊(mx - mn) / st⌋ := mms_floor_pos mn mx st h2 h3
  have hm : (⌊(mx - mn) / st⌋ + 1).toNat = ⌊(mx - mn) / st⌋.toNat + 1 := by omega
  have heval : bin_edges (some mn) (some mx) none (some st) =
      .ok ((List.range ((⌊(mx - mn) / st⌋ + 1).toNat)).map
        (fun i : ℕ => mn + (i : ℚ) * st)) := by
    simp only [bin_edges, num_valid_args, bad_range, bad_nbins]
    norm_num [h1.not_le, hst, not_lt.mpr h3]
    exact mms_ret_eval mn mx st h2 h3
  refine ⟨_, heval, ?_, ?_⟩
  · rw [rangeMap_length, hm]
  · intro i hi
    rw [rangeMap_length] at hi
    exact rangeMap_getElem? _ hi

/-- Witness for C2 (amended) at `(range_min, range_max, step) = (0, 10, 3)`,
where the step does not divide the range and a gap of 1 remains. -/
theorem bin_edges_min_max_step_witness :
    (0 : ℚ) < 10 ∧ (0 : ℚ) < 3 ∧ (3 : ℚ) ≤ 10 - 0 ∧
    ∃ edges, bin_edges (some 0) (some 10) none (some 3) = .ok edges ∧
      edges.length = (⌊((10 : ℚ) - 0) / 3⌋).toNat + 1 ∧
      ∀ i < edges.length, edges[i]? = some (0 + (i : ℚ) * 3) :=
  ⟨by norm_num, by norm_num, by norm_num,
    bin_edges_min_max_step 0 10 3 (by norm_num) (by norm_num) (by norm_num)⟩

/-- C6 counterexample: a successful call with a negative step returns
strictly decreasing edges, so not every successful call yields
monotonically non-decreasing edges. -/
theorem bin_edges_monotone_counterexample :
    bin_edges (some 0) none (some 1) (some (-1)) = .ok [0, -1] ∧
    ¬ (∀ i, i + 1 < ([(0 : ℚ), -1]).length →
        ([(0 : ℚ), -1]).getD i 0 ≤ ([(0 : ℚ), -1]).getD (i + 1) 0) := by
  constructor
  · norm_num [bin_edges, num_valid_args, bad_range, bad_nbins, List.range_succ,
      show ((1 : ℤ)).toNat = 1 by decide]
  · intro h
    have := h 0 (by norm_num)
    norm_num at this

/-- C6 (amended): every successful `bin_edges` call whose step argument is
omitted or nonnegative returns monotonically non-decreasing edges.
(A successful call with a negative step — possible in the
(range_min, nbins, step) and (range_max, nbins, step) cases — returns
strictly decreasing edges.) -/
theorem bin_edges_monotone (range_min range_max : Option ℚ) (nbins : Option ℤ)
    (step : Option ℚ) (edges : List ℚ)
    (hstep : step = none ∨ ∃ s, step = some s ∧ 0 ≤ s)
    (hok : bin_edges range_min range_max nbins step = .ok edges) :
    ∀ i, i + 1 < edges.length → edges.getD i 0 ≤ edges.getD (i + 1) 0 := by
  simp only [bin_edges] at hok
  split_ifs at hok with hc1 hc2 hc3
  rcases hstep with hs | ⟨s, hs, hsnn⟩ <;> subst hs <;>
    rcases range_min with _ | mn <;> rcases range_max with _ | mx <;>
      rcases nbins with _ | n <;> try (simp at hok)
  -- (range_min, range_max, nbins): np.linspace
  · subst hok
    simp only [bad_range, decide_eq_true_eq] at hc2
    simp only [bad_nbins, decide_eq_true_eq] at hc3
    intro i hi
    rw [linspaceQ_length] at hi
    have hn1 : 1 ≤ n.toNat := by omega
    rw [linspaceQ_eq_rangeMap mn mx (by omega)]
    rw [rangeMap_getD _ _ (by omega), rangeMap_getD _ _ (by omega)]
    have hden : (0 : ℚ) ≤ (((n.toNat + 1 : ℕ) : ℚ)) - 1 := by
      push_cast
      have : (1 : ℚ) ≤ (n.toNat : ℚ) := by exact_mod_cast hn1
      linarith
    have hw : 0 ≤ (mx - mn) / ((((n.toNat + 1 : ℕ)) : ℚ) - 1) :=
      div_nonneg (by linarith [not_le.mp hc2]) hden
    have hstep2 := mul_le_mul_of_nonneg_right
      (show ((i : ℚ)) ≤ ((i + 1 : ℕ) : ℚ) by push_cast; linarith) hw
    linarith
  -- (range_max, nbins, step)
  · subst hok
    intro i hi
    rw [rangeMap_length] at hi
    rw [rangeMap_getD _ _ (by omega), rangeMap_getD _ _ (by omega)]
    have hstep2 := mul_le_mul_of_nonneg_right
      (show ((n : ℚ)) - ((i + 1 : ℕ) : ℚ) ≤ ((n : ℚ)) - ((i : ℚ)) by
        push_cast; linarith) hsnn
    linarith
  -- (range_min, nbins, step)
  · subst hok
    intro i hi
    rw [rangeMap_length] at hi
    rw [rangeMap_getD _ _ (by omega), rangeMap_getD _ _ (by omega)]
    have hstep2 := mul_le_mul_of_nonneg_right
      (show ((i : ℚ)) ≤ ((i + 1 : ℕ) : ℚ) by push_cast; linarith) hsnn
    linarith
  -- (range_min, range_max, step): arange then truncation check
  · split_ifs at hok with h3 hz
    simp only [bad_range, decide_eq_true_eq] at hc2
    have hs_pos : 0 < s := lt_of_le_of_ne hsnn (fun hh => hz hh.symm)
    rw [mms_ret_eval mn mx s hs_pos (not_lt.mp h3)] at hok
    simp only [Except.ok.injEq] at hok
    subst hok
    intro i hi
    rw [rangeMap_length] at hi
    rw [rangeMap_getD _ _ (by omega), rangeMap_getD _ _ (by omega)]
    have hstep2 := mul_le_mul_of_nonneg_right
      (show ((i : ℚ)) ≤ ((i + 1 : ℕ) : ℚ) by push_cast; linarith) hsnn
    linarith

/-- Witness for C6 (amended) on the successful call
`bin_edges(range_min=0, range_max=10, nbins=5)`. -/
theorem bin_edges_monotone_witness :
    ([(0 : ℚ), 2, 4, 6, 8, 10]).getD 0 0 ≤ ([(0 : ℚ), 2, 4, 6, 8, 10]).getD 1 0 :=
  bin_edges_monotone (some 0) (some 10) (some 5) none [0, 2, 4, 6, 8, 10]
    (Or.inl rfl)
    (by norm_num [bin_edges, num_valid_args, bad_range, bad_nbins, linspaceQ,
      List.range_succ, show ((5 : ℤ)).toNat = 5 by decide])
    0 (by norm_num)

lemma subLoop_zip_eq (r : Img) (l1 : List Img) (l2 : List Bool)
    (h : l1.length = l2.length) :
    subLoop r (l1.zip l2) = subtractNearestRef (some r) l1 l2 := by
  induction l1 generalizing r l2 with
  | nil =>
    cases l2 with
    | nil => rfl
    | cons b bs => simp at h
  | cons img it ih =>
    cases l2 with
    | nil => simp at h
    | cons b bs =>
      simp only [List.length_cons, Nat.succ.injEq] at h
      cases b with
      | true => simpa [List.zip_cons_cons, subLoop, subtractNearestRef] using ih img bs h
      | false => simpa [List.zip_cons_cons, subLoop, subtractNearestRef] using ih r bs h

lemma subtractNearestRef_length (r : Img) (l1 : List Img) (l2 : List Bool)
    (h : l1.length = l2.length) :
    (subtractNearestRef (some r) l1 l2).length = l2.countP (fun b => !b) := by
  induction l1 generalizing r l2 with
  | nil =>
    cases l2 with
    | nil => rfl
    | cons b bs => simp at h
  | cons img it ih =>
    cases l2 with
    | nil => simp at h
    | cons b bs =>
      simp only [List.length_cons, Nat.succ.injEq] at h
      cases b with
      | true => simp [subtractNearestRef, List.countP_cons, ih img bs h]
      | false => simp [subtractNearestRef, List.countP_cons, ih r bs h]

lemma countP_not_add_countP (l : List Bool) :
    l.countP (fun b => !b) + l.countP (fun b => b) = l.length := by
  induction l with
  | nil => rfl
  | cons b bs ih =>
    cases b <;> simp [List.countP_cons] <;> omega

/-- C5: for parallel image/flag sequences whose first flag is true,
`img_subtraction_pre` returns one corrected image per non-reference input,
each equal to that measured image minus the nearest preceding reference
image, in input order; the output length is the input length minus the
number of reference frames.  In particular `[ref, a, b, ref2, c]` with
flags `[T, F, F, T, F]` yields `[a - ref, b - ref, c - ref2]`. -/
theorem img_subtraction_pre_nearest_ref (img_arr : List Img)
    (is_reference : List Bool)
    (hlen : img_arr.length = is_reference.length)
    (hfirst : is_reference.head? = some true) :
    (img_subtraction_pre img_arr is_reference =
      .ok (subtractNearestRef none img_arr is_reference)) ∧
    (subtractNearestRef none img_arr is_reference).length =
      img_arr.length - is_reference.countP (fun b => b) ∧
    ∀ (ref a b ref2 c : Img),
      img_subtraction_pre [ref, a, b, ref2, c] [true, false, false, true, false] =
        .ok [imgSub a ref, imgSub b ref, imgSub c ref2] := by
  cases is_reference with
  | nil => simp at hfirst
  | cons r0 rtail =>
    simp only [List.head?_cons, Option.some.injEq] at hfirst
    subst hfirst
    cases img_arr with
    | nil => simp at hlen
    | cons img0 itail =>
      simp only [List.length_cons, Nat.succ.injEq] at hlen
      have hsum := countP_not_add_countP rtail
      have hfe : subLoop img0 (itail.zip rtail) =
          subtractNearestRef (some img0) itail rtail :=
        subLoop_zip_eq img0 itail rtail hlen
      have hfl : (subtractNearestRef (some img0) itail rtail).length =
          rtail.countP (fun b => !b) :=
        subtractNearestRef_length img0 itail rtail hlen
      have hnone : subtractNearestRef none (img0 :: itail) (true :: rtail) =
          subtractNearestRef (some img0) itail rtail := rfl
      refine ⟨?_, ?_, ?_⟩
      · simp only [img_subtraction_pre, Bool.not_true, List.length_cons,
          List.countP_cons, hfe, hnone, hfl]
        norm_num
        rw [if_neg (show ¬ itail.length < List.countP (fun b => b) rtail by omega)]
        rw [if_neg (show ¬ itail.length + 1 - (List.countP (fun b => b) rtail + 1) <
            List.countP (fun b => !b) rtail by omega)]
        rw [show itail.length + 1 - (List.countP (fun b => b) rtail + 1) -
            List.countP (fun b => !b) rtail = 0 by omega]
        simp
      · rw [hnone, hfl, List.length_cons, List.countP_cons]
        norm_num
        omega
      · intro ref a b ref2 c
        simp [img_subtraction_pre, subLoop, List.countP_cons]

/-- Witness for C5 on the one-element input `([ref], [true])`. -/
theorem img_subtraction_pre_nearest_ref_witness :
    ([([(1 : ℚ)] : Img)]).length = ([true]).length ∧
    ([true]).head? = some true ∧
    img_subtraction_pre [([(1 : ℚ)] : Img)] [true] =
      .ok (subtractNearestRef none [([(1 : ℚ)] : Img)] [true]) :=
  ⟨rfl, rfl, (img_subtraction_pre_nearest_ref [([(1 : ℚ)] : Img)] [true] rfl rfl).1⟩

/-- C4 evaluated on the 2×3 image `[[0,1,2],[3,4,5]]` with center `(0,0)`:
the intensity at flat index 1 is `img[0][1]` (pixel row 0, column 1), but
the returned `X[1]` is `1`, not `row(1) - center[0] = 1 / 3 - 0 = 0` as the
claim requires — `np.meshgrid` without `indexing='ij'` enumerates the
coordinates in transposed (column-major) order, so `(X[k], Y[k])` is not
the coordinate of the pixel whose intensity is `I[k]`. -/
theorem detector2D_to_1D_meshgrid_bug :
    detector2D_to_1D [[0, 1, 2], [3, 4, 5]] (0, 0) =
      ([0, 1, 0, 1, 0, 1], [0, 0, 1, 1, 2, 2], [0, 1, 2, 3, 4, 5]) ∧
    (detector2D_to_1D [[0, 1, 2], [3, 4, 5]] (0, 0)).1[1]? ≠
      some (((1 / 3 : ℕ) : ℚ) - 0) := by
  have heval : detector2D_to_1D [[0, 1, 2], [3, 4, 5]] (0, 0) =
      ([0, 1, 0, 1, 0, 1], [0, 0, 1, 1, 2, 2], [0, 1, 2, 3, 4, 5]) := by
    norm_num [detector2D_to_1D, List.range_succ, List.replicate, List.flatten]
  refine ⟨heval, ?_⟩
  rw [heval]
  norm_num

/-- C7 counterexample: a 1-element tuple is neither a bare string nor a
value whose `[1]` is a string-or-`None`, so the claim says it is stored
whole with `units=None`; the code instead lets the `IndexError` from
`val[1]` propagate (only `TypeError` is caught). -/
theorem MD_dict_setitem_short_tuple_counterexample :
    MD_dict_setitem_coerce (.ptuple [.pint 5]) = .error .indexError ∧
    MD_dict_setitem_coerce (.ptuple [.pint 5]) ≠
      .ok ⟨.ptuple [.pint 5], .pnone⟩ := by
  refine ⟨rfl, ?_⟩
  intro h
  rw [show MD_dict_setitem_coerce (.ptuple [.pint 5]) = .error .indexError
    from rfl] at h
  exact Except.noConfusion h

/-- C7 (amended): the code's coercion agrees with the amended by-cases
rule on every input. -/
theorem MD_dict_setitem_coercion (v : PyVal) :
    MD_dict_setitem_coerce v = setitem_coerce_claim v := by
  cases v with
  | pmd a u => rfl
  | pstr s => rfl
  | pnone => rfl
  | pint n => rfl
  | ptuple es =>
    match es with
    | [] => rfl
    | [a] => rfl
    | [a, b] =>
      cases hb : isStrOrNone b <;>
        simp [MD_dict_setitem_coerce, setitem_coerce_claim, pyGetItem1, pyUnpack2, hb]
    | a :: b :: c :: t =>
      cases hb : isStrOrNone b <;>
        simp [MD_dict_setitem_coerce, setitem_coerce_claim, pyGetItem1, pyUnpack2, hb]

lemma wsum_congr (xy : List (ℚ × ℚ)) (p q : ℚ → Bool) (h : ∀ v, p v = q v) :
    wsum xy p = wsum xy q := by
  unfold wsum
  rw [List.filter_congr (fun a _ => by rw [h a.1])]

lemma pcount_congr (x : List ℚ) (p q : ℚ → Bool) (h : ∀ v, p v = q v) :
    pcount x p = pcount x q := by
  unfold pcount
  rw [List.countP_congr (fun a _ => by rw [h a])]

/-- A predicate that splits as a disjoint union splits the weighted total. -/
lemma wsum_split (xy : List (ℚ × ℚ)) (a b c : ℚ → Bool)
    (h1 : ∀ v, a v = (b v || c v)) (h2 : ∀ v, ¬(b v = true ∧ c v = true)) :
    wsum xy a = wsum xy b + wsum xy c := by
  induction xy with
  | nil => simp [wsum]
  | cons p t ih =>
    have ha := h1 p.1
    simp only [wsum, List.filter_cons] at ih ⊢
    cases hb : b p.1 <;> cases hc : c p.1
    · rw [hb, hc] at ha
      simp only [Bool.or_self] at ha
      simp [ha, ih]
    · rw [hb, hc] at ha
      simp only [Bool.false_or] at ha
      simp [ha, hb, hc]
      linarith [ih]
    · rw [hb, hc] at ha
      simp only [Bool.or_false] at ha
      simp [ha, hb, hc]
      linarith [ih]
    · exact absurd ⟨hb, hc⟩ (h2 p.1)

/-- A predicate that splits as a disjoint union splits the count. -/
lemma pcount_split (x : List ℚ) (a b c : ℚ → Bool)
    (h1 : ∀ v, a v = (b v || c v)) (h2 : ∀ v, ¬(b v = true ∧ c v = true)) :
    pcount x a = pcount x b + pcount x c := by
  induction x with
  | nil => simp [pcount]
  | cons v t ih =>
    have ha := h1 v
    simp only [pcount, List.countP_cons] at ih ⊢
    cases hb : b v <;> cases hc : c v
    · rw [hb, hc] at ha
      simp only [Bool.or_self] at ha
      simp [ha, ih]
    · rw [hb, hc] at ha
      simp only [Bool.false_or] at ha
      simp [ha, ih]
      omega
    · rw [hb, hc] at ha
      simp only [Bool.or_false] at ha
      simp [ha, ih]
      omega
    · exact absurd ⟨hb, hc⟩ (h2 v)

/-- Splitting a half-open prefix at an interior edge. -/
lemma wsum_band_lt (xy : List (ℚ × ℚ)) (L U : ℚ) (hLU : L ≤ U) :
    wsum xy (fun v => decide (v < U)) =
      wsum xy (fun v => decide (v < L)) +
        wsum xy (fun v => decide (L ≤ v) && decide (v < U)) := by
  apply wsum_split
  · intro v
    by_cases hvL : v < L
    · simp [hvL, lt_of_lt_of_le hvL hLU]
    · simp [hvL, not_lt.mp hvL]
  · intro v hv
    obtain ⟨p, q⟩ := hv
    simp only [decide_eq_true_eq] at p
    simp only [Bool.and_eq_true, decide_eq_true_eq] at q
    linarith [q.1]

/-- Splitting a closed prefix (used for the final, right-closed bin). -/
lemma wsum_band_le (xy : List (ℚ × ℚ)) (L U : ℚ) (hLU : L ≤ U) :
    wsum xy (fun v => decide (v ≤ U)) =
      wsum xy (fun v => decide (v < L)) +
        wsum xy (fun v => decide (L ≤ v) && decide (v ≤ U)) := by
  apply wsum_split
  · intro v
    by_cases hvL : v < L
    · simp [hvL, le_trans hvL.le hLU]
    · simp [hvL, not_lt.mp hvL]
  · intro v hv
    obtain ⟨p, q⟩ := hv
    simp only [decide_eq_true_eq] at p
    simp only [Bool.and_eq_true, decide_eq_true_eq] at q
    linarith [q.1]

lemma pcount_band_lt (x : List ℚ) (L U : ℚ) (hLU : L ≤ U) :
    pcount x (fun v => decide (v < U)) =
      pcount x (fun v => decide (v < L)) +
        pcount x (fun v => decide (L ≤ v) && decide (v < U)) := by
  apply pcount_split
  · intro v
    by_cases hvL : v < L
    · simp [hvL, lt_of_lt_of_le hvL hLU]
    · simp [hvL, not_lt.mp hvL]
  · intro v hv
    obtain ⟨p, q⟩ := hv
    simp only [decide_eq_true_eq] at p
    simp only [Bool.and_eq_true, decide_eq_true_eq] at q
    linarith [q.1]

lemma pcount_band_le (x : List ℚ) (L U : ℚ) (hLU : L ≤ U) :
    pcount x (fun v => decide (v ≤ U)) =
      pcount x (fun v => decide (v < L)) +
        pcount x (fun v => decide (L ≤ v) && decide (v ≤ U)) := by
  apply pcount_split
  · intro v
    by_cases hvL : v < L
    · simp [hvL, le_trans hvL.le hLU]
    · simp [hvL, not_lt.mp hvL]
  · intro v hv
    obtain ⟨p, q⟩ := hv
    simp only [decide_eq_true_eq] at p
    simp only [Bool.and_eq_true, decide_eq_true_eq] at q
    linarith [q.1]

lemma linspaceQ_getD (a b : ℚ) {num i : ℕ} (h2 : 2 ≤ num) (h : i < num) :
    (linspaceQ a b num).getD i 0 = a + (i : ℚ) * ((b - a) / ((num : ℚ) - 1)) := by
  rw [linspaceQ_eq_rangeMap a b h2]
  exact rangeMap_getD _ _ h

/-- C8: for equal-length `x`, `y` and valid explicit `(nx, min_x, max_x)`,
`bin_1D` returns `nx + 1` linearly spaced edges from `min_x` to `max_x`,
per-bin weighted sums of `y` over the samples whose `x` falls in each bin
(last bin right-closed), and the matching per-bin counts; with `min_x` and
`max_x` omitted they default to `min(x)` and `max(x)`. -/
theorem bin_1D_weighted_histogram (x y : List ℚ) (nxs : ℕ) (mn mx : ℚ)
    (hlen : x.length = y.length) (hmn : mn < mx) (hn : 0 < nxs) :
    (∃ edges val count,
      bin_1D x y (some nxs) (some mn) (some mx) = .ok (edges, val, count) ∧
      edges.length = nxs + 1 ∧
      (∀ i < nxs + 1, edges[i]? =
        some (mn + (i : ℚ) * ((mx - mn) / ((nxs + 1 : ℕ) - 1 : ℚ)))) ∧
      (∀ i < nxs, val[i]? = some ((((x.zip y).filter
        (fun p => fallsInBin mn mx nxs i p.1)).map Prod.snd).sum)) ∧
      (∀ i < nxs, count[i]? = some ((x.filter
        (fun v => fallsInBin mn mx nxs i v)).length))) ∧
    (x ≠ [] → bin_1D x y (some nxs) none none =
      bin_1D x y (some nxs) x.min? x.max?) := by
  have hnqpos : (0 : ℚ) < (nxs : ℚ) := by exact_mod_cast hn
  have hw : 0 ≤ (mx - mn) / (nxs : ℚ) := div_nonneg (by linarith) hnqpos.le
  have hcast : ((nxs + 1 : ℕ) : ℚ) - 1 = (nxs : ℚ) := by push_cast; ring
  have hedge : ∀ j, j < nxs + 1 →
      (linspaceQ mn mx (nxs + 1)).getD j 0 =
        mn + (j : ℚ) * ((mx - mn) / (nxs : ℚ)) := by
    intro j hj
    rw [linspaceQ_getD mn mx (by omega) hj, hcast]
  have hUmx : mn + ((nxs : ℚ)) * ((mx - mn) / (nxs : ℚ)) = mx := by
    field_simp
  constructor
  · have heval : bin_1D x y (some nxs) (some mn) (some mx) =
        .ok (linspaceQ mn mx (nxs + 1),
          hist_val (x.zip y) (linspaceQ mn mx (nxs + 1)) nxs,
          hist_count x (linspaceQ mn mx (nxs + 1)) nxs) := by
      simp only [bin_1D, Option.getD_some]
      rw [if_neg (fun h => h hlen)]
      rw [if_neg (not_lt.mpr hmn.le)]
    refine ⟨_, _, _, heval, linspaceQ_length mn mx (nxs + 1), ?_, ?_, ?_⟩
    · intro i hi
      rw [linspaceQ_eq_rangeMap mn mx (by omega), rangeMap_getElem? _ hi]
    · intro i hi
      simp only [hist_val]
      rw [rangeMap_getElem? _ hi]
      congr 1
      show _ = wsum (x.zip y) (fun v => fallsInBin mn mx nxs i v)
      by_cases hlast : i = nxs - 1
      · rw [if_pos hlast]
        have hi1 : i + 1 = nxs := by omega
        rw [hedge (i + 1) (by omega), hedge i (by omega), hi1, hUmx]
        have hle : ((i : ℚ)) ≤ ((nxs : ℚ)) := by exact_mod_cast (by omega : i ≤ nxs)
        have hLmx : mn + (i : ℚ) * ((mx - mn) / (nxs : ℚ)) ≤ mx := by
          have h2 := mul_le_mul_of_nonneg_right hle hw
          linarith [hUmx]
        rw [wsum_band_le (x.zip y) _ _ hLmx, add_sub_cancel_left]
        exact wsum_congr _ _ _ (fun v => by simp only [fallsInBin, if_pos hlast])
      · rw [if_neg hlast]
        rw [hedge (i + 1) (by omega), hedge i (by omega)]
        have hle : ((i : ℚ)) ≤ (((i + 1 : ℕ)) : ℚ) := by push_cast; linarith
        have hLU : mn + (i : ℚ) * ((mx - mn) / (nxs : ℚ)) ≤
            mn + ((i + 1 : ℕ) : ℚ) * ((mx - mn) / (nxs : ℚ)) := by
          have h2 := mul_le_mul_of_nonneg_right hle hw
          linarith
        rw [wsum_band_lt (x.zip y) _ _ hLU, add_sub_cancel_left]
        exact wsum_congr _ _ _ (fun v => by simp only [fallsInBin, if_neg hlast])
    · intro i hi
      simp only [hist_count]
      rw [rangeMap_getElem? _ hi]
      congr 1
      show _ = (x.filter (fun v => fallsInBin mn mx nxs i v)).length
      rw [show (x.filter (fun v => fallsInBin mn mx nxs i v)).length =
        pcount x (fun v => fallsInBin mn mx nxs i v) from
        (List.countP_eq_length_filter _ _).symm]
      by_cases hlast : i = nxs - 1
      · rw [if_pos hlast]
        have hi1 : i + 1 = nxs := by omega
        rw [hedge (i + 1) (by omega), hedge i (by omega), hi1, hUmx]
        have hle : ((i : ℚ)) ≤ ((nxs : ℚ)) := by exact_mod_cast (by omega : i ≤ nxs)
        have hLmx : mn + (i : ℚ) * ((mx - mn) / (nxs : ℚ)) ≤ mx := by
          have h2 := mul_le_mul_of_nonneg_right hle hw
          linarith [hUmx]
        rw [pcount_band_le x _ _ hLmx, Nat.add_sub_cancel_left]
        exact pcount_congr _ _ _ (fun v => by simp only [fallsInBin, if_pos hlast])
      · rw [if_neg hlast]
        rw [hedge (i + 1) (by omega), hedge i (by omega)]
        have hle : ((i : ℚ)) ≤ (((i + 1 : ℕ)) : ℚ) := by push_cast; linarith
        have hLU : mn + (i : ℚ) * ((mx - mn) / (nxs : ℚ)) ≤
            mn + ((i + 1 : ℕ) : ℚ) * ((mx - mn) / (nxs : ℚ)) := by
          have h2 := mul_le_mul_of_nonneg_right hle hw
          linarith
        rw [pcount_band_lt x _ _ hLU, Nat.add_sub_cancel_left]
        exact pcount_congr _ _ _ (fun v => by simp only [fallsInBin, if_neg hlast])
  · intro hxne
    rcases hmin : x.min? with _ | m
    · rw [List.min?_eq_none_iff] at hmin
      exact absurd hmin hxne
    rcases hmax : x.max? with _ | M
    · rw [List.max?_eq_none_iff] at hmax
      exact absurd hmax hxne
    simp only [bin_1D, hmin, hmax]

/-- Witness for C8 on `x = [0, 1]`, `y = [10, 20]`, `nx = 1`,
`min_x = 0`, `max_x = 1`. -/
theorem bin_1D_weighted_histogram_witness :
    ([(0 : ℚ), 1] : List ℚ).length = ([(10 : ℚ), 20] : List ℚ).length ∧
    (0 : ℚ) < 1 ∧ (0 : ℕ) < 1 ∧
    ∃ edges val count,
      bin_1D [(0 : ℚ), 1] [(10 : ℚ), 20] (some 1) (some 0) (some 1) =
        .ok (edges, val, count) := by
  refine ⟨rfl, by norm_num, by norm_num, ?_⟩
  obtain ⟨e, v, c, he, _⟩ :=
    (bin_1D_weighted_histogram [(0 : ℚ), 1] [(10 : ℚ), 20] 1 0 1 rfl (by norm_num)
      (by norm_num)).1
  exact ⟨e, v, c, he⟩
